import Mathlib

/-!
Verification of the FDON minifier and zero-copy parser (`src/lib.rs` of
`fdon-rs`) against its natural-language specification.

The source is shallowly embedded: the input buffer is a `List Nat` of byte
values (the Rust code operates on `&[u8]`), the cursor is an explicit index
threaded through every operation, `Result<T, (String, usize)>` becomes
`Except PErr (T × Nat)` carrying the new index, and the recursive descent is
driven by a fuel parameter that strictly decreases at every recursive call
(a fuel of `4 * length + 8` is far larger than the number of steps any parse
can take, since every loop iteration and every nesting level consumes input).
Strings produced by the parser (escaped-string buffers) are modelled by their
UTF-8 byte sequences, which is the representation the Rust code manipulates
through `from_utf8_unchecked` and `String::push`.

External crates (`memchr`, `atoi`, `fast_float`) are not part of the
repository; `memchr` is the plain first-occurrence scan, while `atoi` and
`fast_float` are modelled from the specification's interface description
(§4.4), as noted on their definitions.
-/

-- ## Byte classifiers (minifier, lib.rs lines 47-120)

/-- Whitespace bytes removed by the minifier: space, tab, LF, CR. -/
def isWS (b : Nat) : Bool := b == 32 || b == 9 || b == 10 || b == 13

/-- Raw-string tag bytes `S`, `D`, `T` (lib.rs line 62). -/
def isTag (b : Nat) : Bool := b == 83 || b == 68 || b == 84

-- ## Minifier (lib.rs lines 47-120, `minify_fdon`)

/-- Whitespace-skipping loop between `SE` and the opening quote
(lib.rs lines 80-82). Returns the new value of `i`. -/
def seSkipWS (data : List Nat) : Nat → Nat → Nat
  | 0, i => i
  | fuel+1, i =>
    match data.get? i with
    | some b => if isWS b then seSkipWS data fuel (i+1) else i
    | none => i

/-- Verbatim copy loop of the escaped-string body in the minifier
(lib.rs lines 89-103).  Pushes every byte; after a backslash the following
byte is pushed as well; an unescaped quote ends the loop.  Returns the bytes
pushed, the new `i`, and the final `in_string_se` flag (which stays `true`
only when input runs out before a closing quote). -/
def seCopy (data : List Nat) : Nat → Nat → (List Nat × Nat × Bool)
  | 0, i => ([], i, true)
  | fuel+1, i =>
    match data.get? i with
    | none => ([], i, true)
    | some se =>
      if se == 92 then
        match data.get? (i+1) with
        | some nxt =>
          let r := seCopy data fuel (i+2)
          (se :: nxt :: r.1, r.2.1, r.2.2)
        | none => ([se], i+1, true)
      else if se == 34 then ([se], i+1, false)
      else
        let r := seCopy data fuel (i+1)
        (se :: r.1, r.2.1, r.2.2)

/-- Main minifier loop (lib.rs lines 54-117).  `inS` is `in_string_s`,
`inSE` is `in_string_se`.  One fuel unit is spent per iteration of the Rust
`while` loop; since `i` grows by at least one each iteration,
`data.length + 1` fuel always suffices. -/
def minifyLoop (data : List Nat) : Nat → Nat → Bool → Bool → List Nat
  | 0, _, _, _ => []
  | fuel+1, i, inS, inSE =>
    match data.get? i with
    | none => []
    | some b =>
      if b == 34 && !inSE then
        -- lines 58-71: a quote toggles the raw-string state; it opens one
        -- only when the previous *input* byte is one of S, D, T
        let inS1 := !inS && decide (i > 0) && isTag (data.getD (i-1) 0)
        34 :: minifyLoop data fuel (i+1) inS1 inSE
      else if b == 83 && data.get? (i+1) == some 69 then
        -- lines 74-106: `SE` detected (in any state); copy `SE`, skip
        -- whitespace, and if a quote follows copy the body verbatim
        let j := seSkipWS data (data.length + 1) (i+2)
        if data.get? j == some 34 then
          let r := seCopy data (data.length + 1) (j+1)
          83 :: 69 :: 34 :: (r.1 ++ minifyLoop data fuel r.2.1 inS r.2.2)
        else
          83 :: 69 :: minifyLoop data fuel j inS inSE
      else if isWS b && !inS && !inSE then
        -- lines 109-112: drop whitespace outside both string states
        minifyLoop data fuel (i+1) inS inSE
      else
        -- lines 115-116: copy any other byte
        b :: minifyLoop data fuel (i+1) inS inSE

/-- `minify_fdon` (lib.rs lines 47-120): strip insignificant whitespace. -/
def minify_fdon (input : List Nat) : List Nat :=
  minifyLoop input (input.length + 1) 0 false false

-- ## Value tree (lib.rs lines 16-42)

/-- `FdonNumber` (lib.rs lines 19-22).  The `Float` payload is the literal
text of the number (the numeric `f64` value itself is floating point and out
of scope; no claim inspects it, only the variant). -/
inductive FdonNumber where
  | Integer : Int → FdonNumber
  | Float : List Nat → FdonNumber
deriving DecidableEq, Repr

/-- `true` exactly on the `Float` variant of `FdonNumber`. -/
def FdonNumber.isFloat : FdonNumber → Bool
  | .Float _ => true
  | .Integer _ => false

/-- `FdonValue` (lib.rs lines 27-38).  Borrowed `&str` slices and the
arena-owned escaped-string buffer are modelled by their byte sequences; the
object map is an insert-overwrite association list. -/
inductive FdonValue where
  | Null : FdonValue
  | Bool : Bool → FdonValue
  | Number : FdonNumber → FdonValue
  | Timestamp : FdonNumber → FdonValue
  | RawString : List Nat → FdonValue
  | EscapedString : List Nat → FdonValue
  | Date : List Nat → FdonValue
  | Time : List Nat → FdonValue
  | Array : List FdonValue → FdonValue
  | Object : List (List Nat × FdonValue) → FdonValue
deriving Repr

/-- Insert-overwrite into the object association list, modelling
`HashMap::insert` (last write wins on an existing key). -/
def insertKV (m : List (List Nat × FdonValue)) (k : List Nat) (v : FdonValue) :
    List (List Nat × FdonValue) :=
  match m with
  | [] => [(k, v)]
  | (k0, v0) :: rest => if k0 = k then (k0, v) :: rest else (k0, v0) :: insertKV rest k v

/-- Parse errors: message and byte offset (lib.rs line 41). -/
abbrev PErr := String × Nat

-- ## External crate models

/-- `memchr`-style scan: index of the first byte satisfying `p`, counting
from `k`. -/
def memchrAux (p : Nat → Bool) : List Nat → Nat → Option Nat
  | [], _ => none
  | b :: bs, k => if p b then some k else memchrAux p bs (k+1)

/-- `memchr::memchr`: first occurrence of byte `c`. -/
def memchr1 (c : Nat) (l : List Nat) : Option Nat :=
  memchrAux (fun b => b == c) l 0

/-- `memchr::memchr2`: first occurrence of `c1` or `c2`. -/
def memchr2 (c1 c2 : Nat) (l : List Nat) : Option Nat :=
  memchrAux (fun b => b == c1 || b == c2) l 0

/-- `memchr::memchr3`: first occurrence of `c1`, `c2` or `c3`. -/
def memchr3 (c1 c2 c3 : Nat) (l : List Nat) : Option Nat :=
  memchrAux (fun b => b == c1 || b == c2 || b == c3) l 0

/-- Accumulate decimal digit bytes; fails on any non-digit byte. -/
def decDigitsAux : List Nat → Nat → Option Nat
  | [], acc => some acc
  | b :: bs, acc =>
    if 48 ≤ b && b ≤ 57 then decDigitsAux bs (acc * 10 + (b - 48)) else none

/-- Mathematical value of a dot-free integer literal: an optional leading
minus sign followed by one or more decimal digits (spec §4.4); `none` on any
other shape. -/
def intLitVal : List Nat → Option Int
  | [] => none
  | 45 :: bs =>
    match bs with
    | [] => none
    | _ => (decDigitsAux bs 0).map (fun n => -(n : Int))
  | bs => (decDigitsAux bs 0).map (fun n => (n : Int))

/-- Modelled from the spec: the external `atoi` crate applied at `i64`
(§4.4: optional leading `-`, decimal digits, overflow rejected).  The value
is computed over `Int` and checked against the signed 64-bit range, which is
exactly the effect of `atoi`'s checked accumulation into an `i64`. -/
def atoi_i64 (s : List Nat) : Option Int :=
  match intLitVal s with
  | some v => if -(2 ^ 63) ≤ v ∧ v < 2 ^ 63 then some v else none
  | none => none

/-- Digit-run acceptor. -/
def digitsOk : List Nat → Bool
  | [] => false
  | l => l.all (fun b => 48 ≤ b && b ≤ 57)

/-- Modelled from the spec: the external `fast_float` crate's acceptance of
the standard decimal textual form, §4.4: optional sign, integer part, `.`,
fractional part, optional exponent `e`/`E` with optional sign.  Only
acceptance matters to the claims (never the numeric value). -/
def fastFloatAccepts (s : List Nat) : Bool :=
  let body := match s with
    | 43 :: rest => rest
    | 45 :: rest => rest
    | rest => rest
  let mantOk : List Nat → Bool := fun m =>
    match memchr1 46 m with
    | some p => digitsOk (m.take p) && digitsOk (m.drop (p+1))
    | none => digitsOk m
  match memchrAux (fun b => b == 101 || b == 69) body 0 with
  | some p =>
    let ex := body.drop (p+1)
    let exBody := match ex with
      | 43 :: rest => rest
      | 45 :: rest => rest
      | rest => rest
    mantOk (body.take p) && digitsOk exBody
  | none => mantOk body

-- ## Cursor primitives (lib.rs lines 142-164)

/-- `peek` (lib.rs lines 143-145). -/
def peek (data : List Nat) (i : Nat) : Option Nat := data.get? i

/-- The slice `data[a..b]`. -/
def sliceBytes (data : List Nat) (a b : Nat) : List Nat :=
  (data.drop a).take (b - a)

/-- One-character string shown for a byte in error messages
(Rust `c as char` then `Display`). -/
def charStr (b : Nat) : String := String.mk [Char.ofNat b]

/-- The `found` part of the `consume` diagnostic (lib.rs line 158). -/
def foundStr : Option Nat → String
  | some b => charStr b
  | none => "EOF"

/-- `consume` (lib.rs lines 152-164): expect a byte and advance past it. -/
def consume (data : List Nat) (c : Nat) (i : Nat) : Except PErr Nat :=
  if peek data i = some c then .ok (i+1)
  else .error ("Expected \x27" ++ charStr c ++ "\x27 but found \x27" ++
    foundStr (peek data i) ++ "\x27", i)

-- ## Leaf parsers (lib.rs lines 257-439)

/-- `parse_key` (lib.rs lines 258-274): the key runs to the next `:`;
the cursor is left on the `:`. -/
def parse_key (data : List Nat) (i : Nat) : Except PErr (List Nat × Nat) :=
  match memchr1 58 (data.drop i) with
  | some pos => .ok (sliceBytes data i (i + pos), i + pos)
  | none => .error ("EOF while reading key (\x27:\x27 not found)", i)

/-- `parse_raw_string` (lib.rs lines 300-322): consume the opening quote,
scan to the closing quote, return the enclosed slice through `ctor`. -/
def parse_raw_string (data : List Nat) (ctor : List Nat → FdonValue) (i : Nat) :
    Except PErr (FdonValue × Nat) :=
  match consume data 34 i with
  | .error e => .error e
  | .ok i1 =>
    match memchr1 34 (data.drop i1) with
    | some pos => .ok (ctor (sliceBytes data i1 (i1 + pos)), i1 + pos + 1)
    | none => .error ("EOF while reading string (\x27\x22\x27 not found)", i1)

/-- UTF-8 encoding of the code point `b < 256`: this is what
`String::push(other as char)` appends for a byte `other` (lib.rs line 375) —
one byte below `0x80`, two bytes above. -/
def charUtf8 (b : Nat) : List Nat :=
  if b < 128 then [b] else [192 + b / 64, 128 + b % 64]

/-- Scan loop of `parse_escaped_string` (lib.rs lines 334-384).  At every
loop head the Rust locals `start_chunk` and `self.index` are equal, so a
single cursor `i` stands for both; `acc` is the arena string built so far,
as UTF-8 bytes.  One fuel unit per escape processed; `data.length + 1`
always suffices. -/
def parse_escaped_string_loop (data : List Nat) :
    Nat → List Nat → Nat → Except PErr (FdonValue × Nat)
  | 0, _, i => .error ("out of fuel", i)
  | fuel+1, acc, i =>
    match memchr2 92 34 (data.drop i) with
    | none => .error ("EOF while reading escaped string (\x27\x22\x27 not found)", i)
    | some pos =>
      if data.getD (i + pos) 0 = 34 then
        .ok (.EscapedString (acc ++ sliceBytes data i (i + pos)), i + pos + 1)
      else
        let acc1 := acc ++ sliceBytes data i (i + pos)
        let i1 := i + pos + 1
        match peek data i1 with
        | none => .error ("EOF after escape character \x27\\\x27", i1)
        | some b =>
          let emitted : List Nat :=
            if b = 110 then [10]
            else if b = 116 then [9]
            else if b = 114 then [13]
            else if b = 34 then [34]
            else if b = 92 then [92]
            else charUtf8 b
          parse_escaped_string_loop data fuel (acc1 ++ emitted) (i1 + 1)

/-- `parse_escaped_string` (lib.rs lines 325-388): consume the opening
quote, then run the scan loop with an empty buffer. -/
def parse_escaped_string (data : List Nat) (i : Nat) :
    Except PErr (FdonValue × Nat) :=
  match consume data 34 i with
  | .error e => .error e
  | .ok i1 => parse_escaped_string_loop data (data.length + 1) [] i1

/-- The local `end` of `parse_number_internal` (lib.rs lines 397-407): the
position of the first `,`, `}` or `]` after `i`, or the end of input. -/
def numEnd (data : List Nat) (i : Nat) : Nat :=
  match memchr3 44 125 93 (data.drop i) with
  | some pos => i + pos
  | none => data.length

/-- The undelimited textual form of a number starting at `i`: the slice
`data[i..end]` (the Rust local `num_slice`, lib.rs line 409). -/
def numSlice (data : List Nat) (i : Nat) : List Nat :=
  sliceBytes data i (numEnd data i)

/-- `parse_number_internal` (lib.rs lines 393-425): cut the slice at the
first delimiter, move the cursor there, then decode as float iff the slice
contains a `.` byte, else as a checked 64-bit integer.  (The Rust float
error message appends `fast_float`'s own display; only the error itself
matters.) -/
def parse_number_internal (data : List Nat) (i : Nat) :
    Except PErr (FdonNumber × Nat) :=
  if (numSlice data i).isEmpty then .error ("Empty number value", numEnd data i)
  else if (memchr1 46 (numSlice data i)).isSome then
    if fastFloatAccepts (numSlice data i) then
      .ok (.Float (numSlice data i), numEnd data i)
    else .error ("Invalid float format", i)
  else
    match atoi_i64 (numSlice data i) with
    | some v => .ok (.Integer v, numEnd data i)
    | none => .error ("Invalid integer format or out of range", i)

/-- `parse_boolean` (lib.rs lines 429-439): match the next 4 bytes against
`true` or the next 5 against `false` (Rust's `get(range)` requires the range
to lie inside the buffer). -/
def parse_boolean (data : List Nat) (i : Nat) : Except PErr (FdonValue × Nat) :=
  if i + 4 ≤ data.length ∧ sliceBytes data i (i+4) = [116, 114, 117, 101] then
    .ok (.Bool true, i + 4)
  else if i + 5 ≤ data.length ∧ sliceBytes data i (i+5) = [102, 97, 108, 115, 101] then
    .ok (.Bool false, i + 5)
  else .error ("Invalid boolean value", i)

-- ## Value dispatcher and composite parsers (lib.rs lines 181-296)

mutual

/-- `parse_value` (lib.rs lines 181-228): read the tag byte and dispatch. -/
def parse_value (data : List Nat) : Nat → Nat → Except PErr (FdonValue × Nat)
  | 0, i => .error ("out of fuel", i)
  | fuel+1, i =>
    match peek data i with
    | none => .error ("Unexpected EOF", i)
    | some c =>
      let i1 := i + 1
      if c = 79 then parse_object data fuel i1
      else if c = 65 then parse_array data fuel i1
      else if c = 83 then
        if peek data i1 = some 69 then parse_escaped_string data (i1 + 1)
        else parse_raw_string data .RawString i1
      else if c = 68 then parse_raw_string data .Date i1
      else if c = 84 then
        if peek data i1 = some 34 then parse_raw_string data .Time i1
        else
          match parse_number_internal data i1 with
          | .ok (n, j) => .ok (.Timestamp n, j)
          | .error e => .error e
      else if c = 78 then
        match parse_number_internal data i1 with
        | .ok (n, j) => .ok (.Number n, j)
        | .error e => .error e
      else if c = 66 then parse_boolean data i1
      else if c = 85 then .ok (.Null, i1)
      else .error ("Unknown data type specifier \x27" ++ charStr c ++ "\x27", i1 - 1)
termination_by structural fuel => fuel

/-- `parse_object` (lib.rs lines 231-254): consume `{` and run the loop. -/
def parse_object (data : List Nat) : Nat → Nat → Except PErr (FdonValue × Nat)
  | 0, i => .error ("out of fuel", i)
  | fuel+1, i =>
    match consume data 123 i with
    | .error e => .error e
    | .ok i1 => parse_object_loop data fuel [] i1
termination_by structural fuel => fuel

/-- The `while self.peek() != Some(b'}')` loop of `parse_object`
(lib.rs lines 237-253), followed by the final `consume(b'}')`. -/
def parse_object_loop (data : List Nat) :
    Nat → List (List Nat × FdonValue) → Nat → Except PErr (FdonValue × Nat)
  | 0, _, i => .error ("out of fuel", i)
  | fuel+1, obj, i =>
    if peek data i ≠ some 125 then
      match parse_key data i with
      | .error e => .error e
      | .ok (key, i1) =>
        match consume data 58 i1 with
        | .error e => .error e
        | .ok i2 =>
          match parse_value data fuel i2 with
          | .error e => .error e
          | .ok (v, i3) =>
            let obj1 := insertKV obj key v
            if peek data i3 = some 44 then
              if peek data (i3+1) = some 125 then
                .error ("Trailing comma detected in object", i3+1)
              else parse_object_loop data fuel obj1 (i3+1)
            else if peek data i3 ≠ some 125 then
              .error ("Missing comma or \x27\x7d\x27 in object", i3)
            else parse_object_loop data fuel obj1 i3
    else
      match consume data 125 i with
      | .error e => .error e
      | .ok i1 => .ok (.Object obj, i1)
termination_by structural fuel => fuel

/-- `parse_array` (lib.rs lines 277-296): consume `[` and run the loop. -/
def parse_array (data : List Nat) : Nat → Nat → Except PErr (FdonValue × Nat)
  | 0, i => .error ("out of fuel", i)
  | fuel+1, i =>
    match consume data 91 i with
    | .error e => .error e
    | .ok i1 => parse_array_loop data fuel [] i1
termination_by structural fuel => fuel

/-- The `while self.peek() != Some(b']')` loop of `parse_array`
(lib.rs lines 282-293), followed by the final `consume(b']')`. -/
def parse_array_loop (data : List Nat) :
    Nat → List FdonValue → Nat → Except PErr (FdonValue × Nat)
  | 0, _, i => .error ("out of fuel", i)
  | fuel+1, arr, i =>
    if peek data i ≠ some 93 then
      match parse_value data fuel i with
      | .error e => .error e
      | .ok (v, i3) =>
        let arr1 := arr ++ [v]
        if peek data i3 = some 44 then
          if peek data (i3+1) = some 93 then
            .error ("Trailing comma detected in array", i3+1)
          else parse_array_loop data fuel arr1 (i3+1)
        else if peek data i3 ≠ some 93 then
          .error ("Missing comma or \x27]\x27 in array", i3)
        else parse_array_loop data fuel arr1 i3
    else
      match consume data 93 i with
      | .error e => .error e
      | .ok i1 => .ok (.Array arr, i1)
termination_by structural fuel => fuel

end

-- ## Entry point (lib.rs lines 168-178 and 446-452)

/-- Fuel budget for a whole parse: far above the number of recursive calls
any input of this length can trigger. -/
def fuel0 (data : List Nat) : Nat := 4 * data.length + 8

/-- `FdonParser::parse` (lib.rs lines 168-178): parse one value, then
require the cursor to sit at the end of input. -/
def parse (data : List Nat) : Except PErr FdonValue :=
  match parse_value data (fuel0 data) 0 with
  | .error e => .error e
  | .ok (v, i) =>
    if i = data.length then .ok v
    else .error ("Extra data detected at end of file", i)

/-- `parse_fdon_zero_copy_arena` (lib.rs lines 446-452): bind the minified
input and the arena and run `parse` (the arena is immaterial to values). -/
def parse_fdon_zero_copy_arena (data : List Nat) : Except PErr FdonValue :=
  parse data

-- ## Input grammar (modelled from the spec)

/-- A run of whitespace bytes. -/
abbrev allWS (w : List Nat) : Prop := ∀ b ∈ w, isWS b = true

/-- Raw-string content: any bytes except `"` (spec §6 `raw-chars`). -/
abbrev rawChars (s : List Nat) : Prop := ∀ b ∈ s, b ≠ 34

/-- Object-key content: any bytes except `:` (spec §6 `key`). -/
abbrev keyChars (s : List Nat) : Prop := ∀ b ∈ s, b ≠ 58

/-- Escaped-string content: any bytes, with `\` escaping the following byte
(spec §6 `esc-chars`); a bare `"` or a trailing lone `\` is not content. -/
inductive EscChars : List Nat → Prop where
  | nil : EscChars []
  | plain (b : Nat) (s : List Nat) : b ≠ 34 → b ≠ 92 → EscChars s → EscChars (b :: s)
  | esc (b : Nat) (s : List Nat) : EscChars s → EscChars (92 :: b :: s)

/-- Modelled from the spec: §6 `number-lit` — optional sign, digits,
optional `.` digits, optional `e` `±` digits; the same shape as the §4.4
float form. -/
def numLitOk (s : List Nat) : Bool := fastFloatAccepts s

mutual

/-- Modelled from the spec: the input grammar of §6, one production per
constructor, with whitespace permitted between tokens outside literals
(before literal openers, after commas, around brackets) but not inside the
`SE` digraph or a literal.  Leading whitespace of a value is carried by the
surrounding production (`ValidDoc`, `ValidElems`, `ValidPairs`). -/
inductive ValidVal : List Nat → Prop where
  | null : ValidVal [85]
  | btrue (w : List Nat) : allWS w → ValidVal (66 :: (w ++ [116, 114, 117, 101]))
  | bfalse (w : List Nat) : allWS w → ValidVal (66 :: (w ++ [102, 97, 108, 115, 101]))
  | num (w lit : List Nat) : allWS w → numLitOk lit = true →
      ValidVal (78 :: (w ++ lit))
  | tnum (w lit : List Nat) : allWS w → numLitOk lit = true →
      ValidVal (84 :: (w ++ lit))
  | tstr (w s : List Nat) : allWS w → rawChars s →
      ValidVal (84 :: (w ++ 34 :: (s ++ [34])))
  | date (w s : List Nat) : allWS w → rawChars s →
      ValidVal (68 :: (w ++ 34 :: (s ++ [34])))
  | rawStr (w s : List Nat) : allWS w → rawChars s →
      ValidVal (83 :: (w ++ 34 :: (s ++ [34])))
  | escStr (w s : List Nat) : allWS w → EscChars s →
      ValidVal (83 :: 69 :: (w ++ 34 :: (s ++ [34])))
  | arrNil (w1 w2 : List Nat) : allWS w1 → allWS w2 →
      ValidVal (65 :: (w1 ++ 91 :: (w2 ++ [93])))
  | arr (w1 body : List Nat) : allWS w1 → ValidElems body →
      ValidVal (65 :: (w1 ++ 91 :: body))
  | objNil (w1 w2 : List Nat) : allWS w1 → allWS w2 →
      ValidVal (79 :: (w1 ++ 123 :: (w2 ++ [125])))
  | obj (w1 body : List Nat) : allWS w1 → ValidPairs body →
      ValidVal (79 :: (w1 ++ 123 :: body))

/-- Nonempty array body after `[`: whitespace-padded values separated by
commas, ending at `]`. -/
inductive ValidElems : List Nat → Prop where
  | last (w1 v w2 : List Nat) : allWS w1 → ValidVal v → allWS w2 →
      ValidElems (w1 ++ v ++ w2 ++ [93])
  | cons (w1 v w2 rest : List Nat) : allWS w1 → ValidVal v → allWS w2 →
      ValidElems rest → ValidElems (w1 ++ v ++ w2 ++ 44 :: rest)

/-- Nonempty object body after the opening brace: whitespace-padded
`key : value` pairs separated by commas, ending at the closing brace. -/
inductive ValidPairs : List Nat → Prop where
  | last (w1 k w2 v w3 : List Nat) : allWS w1 → keyChars k → allWS w2 →
      ValidVal v → allWS w3 →
      ValidPairs (w1 ++ k ++ 58 :: (w2 ++ v ++ w3 ++ [125]))
  | cons (w1 k w2 v w3 rest : List Nat) : allWS w1 → keyChars k → allWS w2 →
      ValidVal v → allWS w3 → ValidPairs rest →
      ValidPairs (w1 ++ k ++ 58 :: (w2 ++ v ++ w3 ++ 44 :: rest))

end

/-- Modelled from the spec: a valid document is a single value with
optional leading and trailing whitespace (§6; §8 scenario 6). -/
inductive ValidDoc : List Nat → Prop where
  | mk (w1 v w2 : List Nat) : allWS w1 → ValidVal v → allWS w2 →
      ValidDoc (w1 ++ v ++ w2)

-- ## Statement helpers

/-- The escape table of §4.5 as the code realises it: named escapes map to
their control bytes, any other byte below `0x80` is emitted literally, and a
byte `0x80`-`0xFF` is emitted as the two-byte UTF-8 encoding of the code
point with that value (the effect of `String::push(other as char)`). -/
def escapeEmitsSpec (b : Nat) : List Nat :=
  if b = 110 then [10]
  else if b = 116 then [9]
  else if b = 114 then [13]
  else if b = 34 then [34]
  else if b = 92 then [92]
  else if b < 128 then [b]
  else [192 + b / 64, 128 + b % 64]

/-- Extract the payload of a successful escaped-string parse (used to state
decidable facts about `parse` without decidable equality on `FdonValue`). -/
def escPayload : Except PErr FdonValue → Option (List Nat)
  | .ok (.EscapedString s) => some s
  | _ => none

/-- The cursor-and-error-offset bound for a parser step returning a value
and the new index: on success the index, and on failure the reported
offset, is at most `len`. -/
def stepOK {α : Type} (len : Nat) : Except PErr (α × Nat) → Prop
  | .ok r => r.2 ≤ len
  | .error e => e.2 ≤ len

/-- Same bound for a step returning only the new index (`consume`). -/
def stepOKN (len : Nat) : Except PErr Nat → Prop
  | .ok j => j ≤ len
  | .error e => e.2 ≤ len

-- ## Helper lemmas

set_option maxRecDepth 10000

theorem escPayload_eq {r : Except PErr FdonValue} {s : List Nat} :
    escPayload r = some s ↔ r = .ok (.EscapedString s) := by
  cases r with
  | error e => simp [escPayload]
  | ok v => cases v <;> simp [escPayload]

theorem memchrAux_some_lt {p : Nat → Bool} : ∀ {l : List Nat} {k m : Nat},
    memchrAux p l k = some m → m < k + l.length := by
  intro l
  induction l with
  | nil => intro k m h; simp [memchrAux] at h
  | cons a as ih =>
    intro k m h
    simp only [memchrAux] at h
    by_cases hp : p a = true
    · rw [if_pos hp] at h
      cases h
      simp
    · rw [if_neg hp] at h
      have := ih h
      simp only [List.length_cons]
      omega

theorem memchrAux_isSome_iff {p : Nat → Bool} : ∀ {l : List Nat} {k : Nat},
    (memchrAux p l k).isSome ↔ ∃ b ∈ l, p b = true := by
  intro l
  induction l with
  | nil => intro k; simp [memchrAux]
  | cons a as ih =>
    intro k
    simp only [memchrAux]
    by_cases hp : p a = true
    · rw [if_pos hp]
      simp only [Option.isSome_some, true_iff]
      exact ⟨a, by simp, hp⟩
    · rw [if_neg hp, ih]
      constructor
      · rintro ⟨b, hb, hpb⟩
        exact ⟨b, List.mem_cons_of_mem _ hb, hpb⟩
      · rintro ⟨b, hb, hpb⟩
        rcases List.mem_cons.mp hb with rfl | hb2
        · exact absurd hpb hp
        · exact ⟨b, hb2, hpb⟩

theorem memchr1_some_lt {c : Nat} {l : List Nat} {m : Nat}
    (h : memchr1 c l = some m) : m < l.length := by
  unfold memchr1 at h
  have := memchrAux_some_lt h
  omega

theorem memchr1_isSome_iff {c : Nat} {l : List Nat} :
    (memchr1 c l).isSome ↔ c ∈ l := by
  unfold memchr1
  rw [memchrAux_isSome_iff]
  constructor
  · rintro ⟨b, hb, hpb⟩
    simp only [beq_iff_eq] at hpb
    exact hpb ▸ hb
  · intro h
    exact ⟨c, h, by simp⟩

theorem peek_some_lt {data : List Nat} {i b : Nat} (h : peek data i = some b) :
    i < data.length := by
  unfold peek at h
  exact (List.get?_eq_some.mp h).1

-- ## Claim C1

/-- C1: REFUTED.  The claim states `minify_fdon (minify_fdon x) =
minify_fdon x` for every input.  On the input `S "T"a b"` the first pass
does not recognise the quote after `S ` as a raw-string opener (the byte
before it in the *input* is a space, lib.rs line 61) but does open a raw
string at the quote after `T`, so the interior space survives; in the
second pass the quote after `S` opens the raw string and the quote after
`T` closes it, so the same space is now outside any literal and is removed:
minification is not idempotent. -/
theorem c1_minify_not_idempotent :
    minify_fdon (minify_fdon [83, 32, 34, 84, 34, 97, 32, 98, 34]) ≠
      minify_fdon [83, 32, 34, 84, 34, 97, 32, 98, 34] ∧
    minify_fdon [83, 32, 34, 84, 34, 97, 32, 98, 34] =
      [83, 34, 84, 34, 97, 32, 98, 34] ∧
    minify_fdon [83, 34, 84, 34, 97, 32, 98, 34] =
      [83, 34, 84, 34, 97, 98, 34] := by
  decide

-- ## Claim C3

/-- C3: REFUTED.  The claim states that exactly the whitespace outside
literal regions is removed and every byte inside a literal is kept.  In the
input `S"SE x"` the bytes `SE x` form the contents of a raw-string literal
(the quote directly follows the tag `S`, so both the input-byte and the
emitted-byte reading of §4.3 agree it is a literal), yet the minifier's
`SE` branch (lib.rs line 74) fires inside the literal and swallows the
space: the output is `S"SEx"`.  The control input `S"SF x"` — identical
except that the digraph is broken — is preserved byte-for-byte. -/
theorem c3_minify_strips_literal_whitespace :
    minify_fdon [83, 34, 83, 69, 32, 120, 34] = [83, 34, 83, 69, 120, 34] ∧
    minify_fdon [83, 34, 83, 70, 32, 120, 34] =
      [83, 34, 83, 70, 32, 120, 34] := by
  decide

-- ## Claim C4

/-- C4 counterexample: the claim says any byte `x` not in the escape table
is emitted as the literal byte `x`.  For the byte `0xC3` (first byte of the
UTF-8 encoding of `é`, so the input `SE"\é"` is valid UTF-8) the code
executes `String::push(0xC3 as char)`, which appends the two bytes
`0xC3 0x83`; together with the verbatim continuation byte `0xA9` the parsed
string is `[195, 131, 169]`, not the claimed literal bytes `[195, 169]`. -/
theorem c4_escape_fallback_counterexample :
    parse_fdon_zero_copy_arena [83, 69, 34, 92, 195, 169, 34] =
      .ok (.EscapedString [195, 131, 169]) ∧
    [195, 131, 169] ≠ [195, 169] :=
  ⟨rfl, by decide⟩

/-- C4 as amended: after a backslash, `n`, `t`, `r`, `"`, `\` emit `0x0A`,
`0x09`, `0x0D`, `0x22`, `0x5C`; any other byte below `0x80` is emitted
literally; a byte `0x80`-`0xFF` is emitted as the two-byte UTF-8 encoding
of the code point with that value; end-of-input after the backslash is an
error.  Checked for all 256 byte values through a whole parse of
`SE"\<b>"`, plus the end-of-input case `SE"\`. -/
theorem c4_escape_semantics :
    (∀ b : Fin 256,
      parse_fdon_zero_copy_arena [83, 69, 34, 92, b.val, 34] =
        .ok (.EscapedString (escapeEmitsSpec b.val))) ∧
    parse_fdon_zero_copy_arena [83, 69, 34, 92] =
      .error ("EOF after escape character \x27\\\x27", 4) := by
  constructor
  · intro b
    rw [← escPayload_eq]
    revert b
    decide
  · rfl

-- ## Claim C2

/-- C2: REFUTED.  The claim states that `parse_fdon_zero_copy_arena ∘
minify_fdon` succeeds on every grammatically valid document.  The document
`A[S"SE", U]` is valid (array of a raw string `SE` and null, one space
after the comma), but the minifier's `SE` branch fires on the `SE` inside
the raw literal, treats the literal's closing quote as an escaped-string
opener, and copies the rest of the input — including the space after the
comma — verbatim, so the space is never removed and the parser then fails
on it as an unknown tag byte at offset 8. -/
theorem c2_valid_doc_fails_after_minify :
    ValidDoc [65, 91, 83, 34, 83, 69, 34, 44, 32, 85, 93] ∧
    minify_fdon [65, 91, 83, 34, 83, 69, 34, 44, 32, 85, 93] =
      [65, 91, 83, 34, 83, 69, 34, 44, 32, 85, 93] ∧
    parse_fdon_zero_copy_arena
        (minify_fdon [65, 91, 83, 34, 83, 69, 34, 44, 32, 85, 93]) =
      .error ("Unknown data type specifier \x27 \x27", 8) := by
  refine ⟨?_, by decide, by rfl⟩
  have hnull : ValidVal [85] := ValidVal.null
  have hraw : ValidVal [83, 34, 83, 69, 34] := by
    have h := ValidVal.rawStr [] [83, 69] (by decide) (by decide)
    simpa using h
  have hrest : ValidElems [32, 85, 93] := by
    have h := ValidElems.last [32] [85] [] (by decide) hnull (by decide)
    simpa using h
  have helems : ValidElems [83, 34, 83, 69, 34, 44, 32, 85, 93] := by
    have h := ValidElems.cons [] [83, 34, 83, 69, 34] [] [32, 85, 93]
      (by decide) hraw (by decide) hrest
    simpa using h
  have hval : ValidVal [65, 91, 83, 34, 83, 69, 34, 44, 32, 85, 93] := by
    have h := ValidVal.arr [] [83, 34, 83, 69, 34, 44, 32, 85, 93]
      (by decide) helems
    simpa using h
  have h := ValidDoc.mk [] [65, 91, 83, 34, 83, 69, 34, 44, 32, 85, 93] []
    (by decide) hval (by decide)
  simpa using h

-- ## Claim C5

/-- C5: for every successful run of the number decoder (reached from both
the `N` tag, lib.rs line 216, and the numeric `T` path, line 209), the
result is the `Float` variant exactly when the undelimited textual form
contains a `.` byte (0x2E), and the `Integer` variant otherwise. -/
theorem c5_float_iff_dot (data : List Nat) (i : Nat) (n : FdonNumber) (j : Nat)
    (h : parse_number_internal data i = .ok (n, j)) :
    n.isFloat = true ↔ 46 ∈ numSlice data i := by
  rw [← memchr1_isSome_iff]
  unfold parse_number_internal at h
  by_cases he : (numSlice data i).isEmpty
  · rw [if_pos he] at h
    exact absurd h (by simp)
  · rw [if_neg he] at h
    by_cases hd : (memchr1 46 (numSlice data i)).isSome
    · rw [if_pos hd] at h
      by_cases hf : fastFloatAccepts (numSlice data i) = true
      · rw [if_pos hf] at h
        rw [Except.ok.injEq, Prod.mk.injEq] at h
        obtain ⟨hn, _⟩ := h
        subst hn
        simpa [FdonNumber.isFloat] using hd
      · rw [if_neg hf] at h
        exact absurd h (by simp)
    · rw [if_neg hd] at h
      cases ha : atoi_i64 (numSlice data i) with
      | some v =>
        rw [ha] at h
        rw [Except.ok.injEq, Prod.mk.injEq] at h
        obtain ⟨hn, _⟩ := h
        subst hn
        simpa [FdonNumber.isFloat] using hd
      | none =>
        rw [ha] at h
        exact absurd h (by simp)

/-- C5 witness: `3.14` decodes to the `Float` variant and its text contains
the dot. -/
theorem c5_witness :
    (FdonNumber.Float [51, 46, 49, 52]).isFloat = true ↔
      46 ∈ numSlice [51, 46, 49, 52] 0 :=
  c5_float_iff_dot [51, 46, 49, 52] 0 (.Float [51, 46, 49, 52]) 4 (by rfl)

-- ## Claim C6

/-- C6: for a dot-free number literal, (a) if its integer value does not
fit the signed 64-bit range the decoder returns the integer-range error —
it never falls back to `Float` — and (b) every successful result is an
`Integer` whose value lies in the signed 64-bit range. -/
theorem c6_i64_overflow (data : List Nat) (i : Nat)
    (hdot : 46 ∉ numSlice data i) :
    (∀ k : Int, intLitVal (numSlice data i) = some k →
      (k < -(2 ^ 63) ∨ 2 ^ 63 ≤ k) →
      parse_number_internal data i =
        .error ("Invalid integer format or out of range", i)) ∧
    (∀ n j, parse_number_internal data i = .ok (n, j) →
      ∃ k : Int, n = .Integer k ∧ -(2 ^ 63) ≤ k ∧ k < 2 ^ 63) := by
  have hd : ¬ (memchr1 46 (numSlice data i)).isSome = true := by
    rw [memchr1_isSome_iff]
    exact hdot
  constructor
  · intro k hk hrange
    have he : ¬ (numSlice data i).isEmpty = true := by
      cases hns : numSlice data i with
      | nil => rw [hns] at hk; simp [intLitVal] at hk
      | cons a as => simp [hns]
    have hnr : ¬ (-(2 ^ 63) ≤ k ∧ k < 2 ^ 63) := by omega
    have hA : atoi_i64 (numSlice data i) = none := by
      simp only [atoi_i64, hk, if_neg hnr]
    unfold parse_number_internal
    rw [if_neg he, if_neg hd, hA]
  · intro n j h
    unfold parse_number_internal at h
    by_cases he : (numSlice data i).isEmpty
    · rw [if_pos he] at h
      exact absurd h (by simp)
    · rw [if_neg he, if_neg hd] at h
      cases ha : atoi_i64 (numSlice data i) with
      | some v =>
        rw [ha] at h
        rw [Except.ok.injEq, Prod.mk.injEq] at h
        obtain ⟨hn, _⟩ := h
        subst hn
        cases hil : intLitVal (numSlice data i) with
        | some w =>
          simp only [atoi_i64, hil] at ha
          by_cases hr : -(2 ^ 63) ≤ w ∧ w < 2 ^ 63
          · rw [if_pos hr] at ha
            rw [Option.some.injEq] at ha
            subst ha
            exact ⟨w, rfl, hr.1, hr.2⟩
          · rw [if_neg hr] at ha
            exact absurd ha (by simp)
        | none =>
          simp only [atoi_i64, hil] at ha
          exact absurd ha (by simp)
      | none =>
        rw [ha] at h
        exact absurd h (by simp)

/-- C6 witness: the dot-free literal `9999999999999999999` (one more digit
than `i64::MAX` has) yields the integer-range error. -/
theorem c6_witness :
    parse_number_internal
        [57, 57, 57, 57, 57, 57, 57, 57, 57, 57, 57, 57, 57, 57, 57, 57, 57, 57, 57] 0 =
      .error ("Invalid integer format or out of range", 0) :=
  (c6_i64_overflow
      [57, 57, 57, 57, 57, 57, 57, 57, 57, 57, 57, 57, 57, 57, 57, 57, 57, 57, 57] 0
      (by decide)).1 9999999999999999999 (by decide) (by decide)

-- ## Claim C7

/-- C7: in both composite parsers, when — after a successfully parsed entry
— the cursor sits on a comma whose successor byte is the closing bracket,
the loop returns the trailing-comma error (at the offset of the closing
bracket) instead of a value; stated for an arbitrary loop state and checked
end-to-end on `O{a:N1,}` and `A[N1,]`. -/
theorem c7_trailing_comma :
    (∀ (data : List Nat) (fuel : Nat) (obj : List (List Nat × FdonValue))
        (i : Nat) (key : List Nat) (i1 i2 : Nat) (v : FdonValue) (i3 : Nat),
      peek data i ≠ some 125 →
      parse_key data i = .ok (key, i1) →
      consume data 58 i1 = .ok i2 →
      parse_value data fuel i2 = .ok (v, i3) →
      peek data i3 = some 44 →
      peek data (i3 + 1) = some 125 →
      parse_object_loop data (fuel + 1) obj i =
        .error ("Trailing comma detected in object", i3 + 1)) ∧
    (∀ (data : List Nat) (fuel : Nat) (arr : List FdonValue) (i : Nat)
        (v : FdonValue) (i3 : Nat),
      peek data i ≠ some 93 →
      parse_value data fuel i = .ok (v, i3) →
      peek data i3 = some 44 →
      peek data (i3 + 1) = some 93 →
      parse_array_loop data (fuel + 1) arr i =
        .error ("Trailing comma detected in array", i3 + 1)) ∧
    parse_fdon_zero_copy_arena [79, 123, 97, 58, 78, 49, 44, 125] =
      .error ("Trailing comma detected in object", 7) ∧
    parse_fdon_zero_copy_arena [65, 91, 78, 49, 44, 93] =
      .error ("Trailing comma detected in array", 5) := by
  refine ⟨?_, ?_, by rfl, by rfl⟩
  · intro data fuel obj i key i1 i2 v i3 h0 h1 h2 h3 h4 h5
    simp [parse_object_loop, h0, h1, h2, h3, h4, h5]
  · intro data fuel arr i v i3 h0 h1 h2 h3
    simp [parse_array_loop, h0, h1, h2, h3]

/-- C7 witness: the object loop of `O{a:N1,}` started after the `{` hits
the trailing-comma error at offset 7. -/
theorem c7_witness :
    parse_object_loop [79, 123, 97, 58, 78, 49, 44, 125] 9 [] 2 =
      .error ("Trailing comma detected in object", 7) :=
  c7_trailing_comma.1 [79, 123, 97, 58, 78, 49, 44, 125] 8 [] 2 [97] 3 4
    (.Number (.Integer 1)) 6 (by decide) (by rfl) (by rfl) (by rfl)
    (by decide) (by decide)

-- ## Claim C8

/-- C8: `parse` returns the dispatched value exactly when the cursor ends
at the input length, and otherwise returns the extra-data error carrying
the cursor position (lib.rs lines 168-178). -/
theorem c8_end_of_input_check (data : List Nat) :
    (∀ v : FdonValue, parse data = .ok v ↔
      parse_value data (fuel0 data) 0 = .ok (v, data.length)) ∧
    (∀ (v : FdonValue) (i : Nat),
      parse_value data (fuel0 data) 0 = .ok (v, i) → i ≠ data.length →
      parse data = .error ("Extra data detected at end of file", i)) := by
  constructor
  · intro v
    constructor
    · intro h
      unfold parse at h
      split at h
      · exact absurd h (by simp)
      · rename_i v2 i hpv
        split at h
        · rename_i hi
          rw [Except.ok.injEq] at h
          subst h
          subst hi
          exact hpv
        · exact absurd h (by simp)
    · intro h
      unfold parse
      rw [h]
      simp
  · intro v i h hne
    unfold parse
    rw [h]
    dsimp only
    rw [if_neg hne]

/-- C8 witness: `UU` parses its first `U` leaving the cursor at 1 of 2, and
`parse` reports extra data at offset 1. -/
theorem c8_witness :
    parse [85, 85] = .error ("Extra data detected at end of file", 1) :=
  (c8_end_of_input_check [85, 85]).2 .Null 1 (by rfl) (by decide)

-- ## Claim C9

/-- C9: when the byte at the cursor is `:`, `parse_key` succeeds with the
empty key and does not move the cursor (the scan finds `:` at offset 0);
consequently `O{:N1}` parses to an object with one entry whose key is the
empty string. -/
theorem c9_empty_key :
    (∀ (data : List Nat) (i : Nat), peek data i = some 58 →
      parse_key data i = .ok ([], i)) ∧
    parse_fdon_zero_copy_arena [79, 123, 58, 78, 49, 125] =
      .ok (.Object [([], .Number (.Integer 1))]) := by
  refine ⟨?_, by rfl⟩
  intro data i h
  unfold peek at h
  obtain ⟨hlt, hget⟩ := List.get?_eq_some.mp h
  rw [List.get_eq_getElem] at hget
  unfold parse_key
  rw [List.drop_eq_getElem_cons hlt, hget]
  simp [memchr1, memchrAux, sliceBytes]

/-- C9 witness: on the one-byte input `:` the key parser returns the empty
key at offset 0. -/
theorem c9_witness : parse_key [58] 0 = .ok ([], 0) :=
  c9_empty_key.1 [58] 0 (by rfl)

-- ## C10 helper bounds

theorem memchr2_some_lt {c1 c2 : Nat} {l : List Nat} {m : Nat}
    (h : memchr2 c1 c2 l = some m) : m < l.length := by
  unfold memchr2 at h
  have := memchrAux_some_lt h
  omega

theorem memchr3_some_lt {c1 c2 c3 : Nat} {l : List Nat} {m : Nat}
    (h : memchr3 c1 c2 c3 l = some m) : m < l.length := by
  unfold memchr3 at h
  have := memchrAux_some_lt h
  omega

theorem consume_bound {data : List Nat} {c i : Nat} (h : i ≤ data.length) :
    stepOKN data.length (consume data c i) := by
  unfold consume
  by_cases hp : peek data i = some c
  · rw [if_pos hp]
    exact peek_some_lt hp
  · rw [if_neg hp]
    exact h

theorem parse_key_bound {data : List Nat} {i : Nat} (h : i ≤ data.length) :
    stepOK data.length (parse_key data i) := by
  unfold parse_key
  cases hm : memchr1 58 (data.drop i) with
  | some pos =>
    have hlt := memchr1_some_lt hm
    rw [List.length_drop] at hlt
    show i + pos ≤ data.length
    omega
  | none => exact h

theorem parse_raw_string_bound {data : List Nat} {ctor : List Nat → FdonValue}
    {i : Nat} (h : i ≤ data.length) :
    stepOK data.length (parse_raw_string data ctor i) := by
  unfold parse_raw_string
  cases hc : consume data 34 i with
  | error e =>
    have hb := consume_bound (c := 34) h
    rw [hc] at hb
    exact hb
  | ok i1 =>
    have hb := consume_bound (c := 34) h
    rw [hc] at hb
    have h1 : i1 ≤ data.length := hb
    dsimp only
    cases hm : memchr1 34 (data.drop i1) with
    | some pos =>
      have hlt := memchr1_some_lt hm
      rw [List.length_drop] at hlt
      show i1 + pos + 1 ≤ data.length
      omega
    | none => exact h1

theorem parse_escaped_string_loop_bound {data : List Nat} :
    ∀ (fuel : Nat) (acc : List Nat) (i : Nat), i ≤ data.length →
      stepOK data.length (parse_escaped_string_loop data fuel acc i) := by
  intro fuel
  induction fuel with
  | zero => intro acc i h; exact h
  | succ fuel ih =>
    intro acc i h
    rw [parse_escaped_string_loop]
    cases hm : memchr2 92 34 (data.drop i) with
    | none => exact h
    | some pos =>
      have hlt := memchr2_some_lt hm
      rw [List.length_drop] at hlt
      dsimp only
      by_cases hq : data.getD (i + pos) 0 = 34
      · rw [if_pos hq]
        show i + pos + 1 ≤ data.length
        omega
      · rw [if_neg hq]
        cases hp : peek data (i + pos + 1) with
        | none =>
          show i + pos + 1 ≤ data.length
          omega
        | some b =>
          have := peek_some_lt hp
          exact ih _ _ (by omega)

theorem parse_escaped_string_bound {data : List Nat} {i : Nat}
    (h : i ≤ data.length) :
    stepOK data.length (parse_escaped_string data i) := by
  unfold parse_escaped_string
  cases hc : consume data 34 i with
  | error e =>
    have hb := consume_bound (c := 34) h
    rw [hc] at hb
    exact hb
  | ok i1 =>
    have hb := consume_bound (c := 34) h
    rw [hc] at hb
    exact parse_escaped_string_loop_bound _ _ _ hb

theorem numEnd_le {data : List Nat} {i : Nat} : numEnd data i ≤ data.length := by
  unfold numEnd
  cases hm : memchr3 44 125 93 (data.drop i) with
  | some pos =>
    have hlt := memchr3_some_lt hm
    rw [List.length_drop] at hlt
    dsimp only
    omega
  | none => exact Nat.le_refl _

theorem parse_number_internal_bound {data : List Nat} {i : Nat}
    (h : i ≤ data.length) :
    stepOK data.length (parse_number_internal data i) := by
  unfold parse_number_internal
  by_cases he : (numSlice data i).isEmpty = true
  · rw [if_pos he]
    exact numEnd_le
  · rw [if_neg he]
    by_cases hd : (memchr1 46 (numSlice data i)).isSome = true
    · rw [if_pos hd]
      by_cases hf : fastFloatAccepts (numSlice data i) = true
      · rw [if_pos hf]
        exact numEnd_le
      · rw [if_neg hf]
        exact h
    · rw [if_neg hd]
      cases atoi_i64 (numSlice data i) with
      | some v => exact numEnd_le
      | none => exact h

theorem parse_boolean_bound {data : List Nat} {i : Nat}
    (h : i ≤ data.length) :
    stepOK data.length (parse_boolean data i) := by
  unfold parse_boolean
  by_cases h4 : i + 4 ≤ data.length ∧ sliceBytes data i (i+4) = [116, 114, 117, 101]
  · rw [if_pos h4]
    exact h4.1
  · rw [if_neg h4]
    by_cases h5 : i + 5 ≤ data.length ∧ sliceBytes data i (i+5) = [102, 97, 108, 115, 101]
    · rw [if_pos h5]
      exact h5.1
    · rw [if_neg h5]
      exact h

theorem parser_bounds (data : List Nat) : ∀ fuel : Nat,
    (∀ i, i ≤ data.length → stepOK data.length (parse_value data fuel i)) ∧
    (∀ i, i ≤ data.length → stepOK data.length (parse_object data fuel i)) ∧
    (∀ obj i, i ≤ data.length →
      stepOK data.length (parse_object_loop data fuel obj i)) ∧
    (∀ i, i ≤ data.length → stepOK data.length (parse_array data fuel i)) ∧
    (∀ arr i, i ≤ data.length →
      stepOK data.length (parse_array_loop data fuel arr i)) := by
  intro fuel
  induction fuel with
  | zero =>
    exact ⟨fun i h => h, fun i h => h, fun obj i h => h, fun i h => h,
      fun arr i h => h⟩
  | succ fuel ih =>
    obtain ⟨ihv, iho, ihol, iha, ihal⟩ := ih
    refine ⟨?_, ?_, ?_, ?_, ?_⟩
    · intro i hi
      rw [parse_value]
      cases hp : peek data i with
      | none => exact hi
      | some c =>
        have hlt : i < data.length := peek_some_lt hp
        dsimp only
        by_cases h79 : c = 79
        · rw [if_pos h79]
          exact iho (i+1) hlt
        · rw [if_neg h79]
          by_cases h65 : c = 65
          · rw [if_pos h65]
            exact iha (i+1) hlt
          · rw [if_neg h65]
            by_cases h83 : c = 83
            · rw [if_pos h83]
              by_cases hE : peek data (i+1) = some 69
              · rw [if_pos hE]
                exact parse_escaped_string_bound (peek_some_lt hE)
              · rw [if_neg hE]
                exact parse_raw_string_bound hlt
            · rw [if_neg h83]
              by_cases h68 : c = 68
              · rw [if_pos h68]
                exact parse_raw_string_bound hlt
              · rw [if_neg h68]
                by_cases h84 : c = 84
                · rw [if_pos h84]
                  by_cases hq : peek data (i+1) = some 34
                  · rw [if_pos hq]
                    exact parse_raw_string_bound hlt
                  · rw [if_neg hq]
                    have hb := @parse_number_internal_bound data (i+1) hlt
                    cases hn : parse_number_internal data (i+1) with
                    | ok p =>
                      obtain ⟨n, j⟩ := p
                      rw [hn] at hb
                      exact hb
                    | error e =>
                      rw [hn] at hb
                      exact hb
                · rw [if_neg h84]
                  by_cases h78 : c = 78
                  · rw [if_pos h78]
                    have hb := @parse_number_internal_bound data (i+1) hlt
                    cases hn : parse_number_internal data (i+1) with
                    | ok p =>
                      obtain ⟨n, j⟩ := p
                      rw [hn] at hb
                      exact hb
                    | error e =>
                      rw [hn] at hb
                      exact hb
                  · rw [if_neg h78]
                    by_cases h66 : c = 66
                    · rw [if_pos h66]
                      exact parse_boolean_bound hlt
                    · rw [if_neg h66]
                      by_cases h85 : c = 85
                      · rw [if_pos h85]
                        exact hlt
                      · rw [if_neg h85]
                        show i + 1 - 1 ≤ data.length
                        omega
    · intro i hi
      rw [parse_object]
      have hb := consume_bound (c := 123) (i := i) hi
      cases hc : consume data 123 i with
      | error e =>
        rw [hc] at hb
        exact hb
      | ok i1 =>
        rw [hc] at hb
        exact ihol [] i1 hb
    · intro obj i hi
      rw [parse_object_loop]
      by_cases hne : peek data i ≠ some 125
      · rw [if_pos hne]
        have hkb := @parse_key_bound data i hi
        cases hk : parse_key data i with
        | error e =>
          rw [hk] at hkb
          exact hkb
        | ok p =>
          obtain ⟨key, i1⟩ := p
          rw [hk] at hkb
          dsimp only
          have hcb := consume_bound (c := 58) (i := i1) hkb
          cases hc : consume data 58 i1 with
          | error e =>
            rw [hc] at hcb
            exact hcb
          | ok i2 =>
            rw [hc] at hcb
            dsimp only
            have hvb := ihv i2 hcb
            cases hv : parse_value data fuel i2 with
            | error e =>
              rw [hv] at hvb
              exact hvb
            | ok q =>
              obtain ⟨v, i3⟩ := q
              rw [hv] at hvb
              dsimp only
              by_cases h44 : peek data i3 = some 44
              · rw [if_pos h44]
                by_cases h125 : peek data (i3+1) = some 125
                · rw [if_pos h125]
                  exact Nat.le_of_lt (peek_some_lt h125)
                · rw [if_neg h125]
                  exact ihol _ (i3+1) (peek_some_lt h44)
              · rw [if_neg h44]
                by_cases hne3 : peek data i3 ≠ some 125
                · rw [if_pos hne3]
                  exact hvb
                · rw [if_neg hne3]
                  exact ihol _ i3 hvb
      · rw [if_neg hne]
        have hcb := consume_bound (c := 125) (i := i) hi
        cases hc : consume data 125 i with
        | error e =>
          rw [hc] at hcb
          exact hcb
        | ok i1 =>
          rw [hc] at hcb
          exact hcb
    · intro i hi
      rw [parse_array]
      have hb := consume_bound (c := 91) (i := i) hi
      cases hc : consume data 91 i with
      | error e =>
        rw [hc] at hb
        exact hb
      | ok i1 =>
        rw [hc] at hb
        exact ihal [] i1 hb
    · intro arr i hi
      rw [parse_array_loop]
      by_cases hne : peek data i ≠ some 93
      · rw [if_pos hne]
        have hvb := ihv i hi
        cases hv : parse_value data fuel i with
        | error e =>
          rw [hv] at hvb
          exact hvb
        | ok q =>
          obtain ⟨v, i3⟩ := q
          rw [hv] at hvb
          dsimp only
          by_cases h44 : peek data i3 = some 44
          · rw [if_pos h44]
            by_cases h93 : peek data (i3+1) = some 93
            · rw [if_pos h93]
              exact Nat.le_of_lt (peek_some_lt h93)
            · rw [if_neg h93]
              exact ihal _ (i3+1) (peek_some_lt h44)
          · rw [if_neg h44]
            by_cases hne3 : peek data i3 ≠ some 93
            · rw [if_pos hne3]
              exact hvb
            · rw [if_neg hne3]
              exact ihal _ i3 hvb
      · rw [if_neg hne]
        have hcb := consume_bound (c := 93) (i := i) hi
        cases hc : consume data 93 i with
        | error e =>
          rw [hc] at hcb
          exact hcb
        | ok i1 =>
          rw [hc] at hcb
          exact hcb

-- ## Claim C10

/-- C10: the cursor never exceeds the input length.  First conjunct: from
any in-bounds cursor position, every run of the value dispatcher (and hence
of everything it calls, each of which is covered by the bound lemmas above)
ends with an in-bounds cursor on success and an in-bounds offset on error,
for every fuel.  Second conjunct: consequently the byte offset carried by
any error of the public `parse` is at most the input length. -/
theorem c10_cursor_bounded :
    (∀ (data : List Nat) (fuel : Nat) (i : Nat), i ≤ data.length →
      stepOK data.length (parse_value data fuel i)) ∧
    (∀ (data : List Nat) (msg : String) (p : Nat),
      parse data = .error (msg, p) → p ≤ data.length) := by
  constructor
  · intro data fuel i hi
    exact (parser_bounds data fuel).1 i hi
  · intro data msg p h
    unfold parse at h
    have hb := (parser_bounds data (fuel0 data)).1 0 (Nat.zero_le _)
    cases hpv : parse_value data (fuel0 data) 0 with
    | error e =>
      rw [hpv] at h hb
      dsimp only at h
      rw [Except.error.injEq] at h
      subst h
      exact hb
    | ok q =>
      obtain ⟨v, i⟩ := q
      rw [hpv] at h hb
      dsimp only at h
      by_cases hi : i = data.length
      · rw [if_pos hi] at h
        exact absurd h (by simp)
      · rw [if_neg hi] at h
        rw [Except.error.injEq, Prod.mk.injEq] at h
        obtain ⟨_, hp⟩ := h
        subst hp
        exact hb

/-- C10 witness: a concrete in-bounds run on the one-byte input `U`. -/
theorem c10_witness : stepOK ([85] : List Nat).length (parse_value [85] 5 0) :=
  c10_cursor_bounded.1 [85] 5 0 (by decide)
